import Mathlib

/-!
Verification development for the ASREQRoast capture-and-parse pipeline
(src/asreqroast.py). Strings are modelled as `List Char`; the Python
string primitives used by the code (`str.strip`, `str.split` with an
explicit separator, `str.lower`) are embedded below, and then each
function of the source is translated on top of them.
-/

namespace ASReqRoast

/-- Python `str.isspace` on a single character: true for ASCII whitespace
(tab through carriage return, the separator control codes 28-31, space)
and the Unicode whitespace code points Python recognises. -/
def pyIsSpace (c : Char) : Bool :=
  (9 ≤ c.toNat && c.toNat ≤ 13) || (28 ≤ c.toNat && c.toNat ≤ 32) ||
  c.toNat = 133 || c.toNat = 160 || c.toNat = 5760 ||
  (8192 ≤ c.toNat && c.toNat ≤ 8202) || c.toNat = 8232 || c.toNat = 8233 ||
  c.toNat = 8239 || c.toNat = 8287 || c.toNat = 12288

/-- Python `str.strip()` with no argument: remove leading and trailing
whitespace characters. -/
def pyStrip (l : List Char) : List Char :=
  ((l.dropWhile pyIsSpace).reverse.dropWhile pyIsSpace).reverse

/-- Python `str.split(sep)` with an explicit one-character separator:
split at every occurrence of `sep`, keeping empty parts; the empty
string yields one empty part. -/
def pySplit (sep : Char) : List Char → List (List Char)
  | [] => [[]]
  | c :: cs =>
    if c = sep then [] :: pySplit sep cs
    else
      match pySplit sep cs with
      | [] => [[c]]
      | p :: ps => (c :: p) :: ps

/-- Python `str.lower` on one character, restricted to the ASCII case
mapping (the only case mapping the program can encounter on its
`john` / `hashcat` mode strings). -/
def pyLowerChar (c : Char) : Char :=
  if 65 ≤ c.toNat && c.toNat ≤ 90 then Char.ofNat (c.toNat + 32) else c

/-- Python `str.lower` on a string (ASCII case mapping). -/
def pyLower (l : List Char) : List Char := l.map pyLowerChar

/-- `parse_asreq_line` from src/asreqroast.py: strip the line, split on
the literal delimiter, reject unless exactly 3 parts, reject if any part
is empty, else return the parts positionally. -/
def parse_asreq_line (line : List Char) :
    Option (List Char × List Char × List Char) :=
  match pySplit '$' (pyStrip line) with
  | [username, domain, cipher] =>
    if username.isEmpty || domain.isEmpty || cipher.isEmpty then none
    else some (username, domain, cipher)
  | _ => none

/-- `format_asreq_hash` from src/asreqroast.py: John format carries an
extra delimiter between domain and cipher; every other mode string
falls through to the Hashcat format. -/
def format_asreq_hash (username domain cipher fmt : List Char) : List Char :=
  if pyLower fmt = "john".data then
    "$krb5pa$18$".data ++ username ++ '$' :: (domain ++ '$' :: ('$' :: cipher))
  else
    "$krb5pa$18$".data ++ username ++ '$' :: (domain ++ '$' :: cipher)

example : parse_asreq_line "alice$EXAMPLE.COM$deadbeef".data =
    some ("alice".data, "EXAMPLE.COM".data, "deadbeef".data) := by decide

example : parse_asreq_line "  alice$EXAMPLE.COM$deadbeef  ".data =
    some ("alice".data, "EXAMPLE.COM".data, "deadbeef".data) := by decide

example : parse_asreq_line "a$b".data = none := by decide

example : parse_asreq_line "a$b$c$d".data = none := by decide

example : parse_asreq_line "".data = none := by decide

example : parse_asreq_line "  \t ".data = none := by decide

example : parse_asreq_line "$b$c".data = none := by decide

example : format_asreq_hash "u".data "d".data "c".data "hashcat".data =
    "$krb5pa$18$u$d$c".data := by decide

example : format_asreq_hash "u".data "d".data "c".data "john".data =
    "$krb5pa$18$u$d$$c".data := by decide

example : format_asreq_hash "u".data "d".data "c".data "JoHn".data =
    "$krb5pa$18$u$d$$c".data := by decide

/-- Observable side effects of the pipeline: the two console prints of
the capture loop (the timestamped capture report and the hash line),
file appends (path and appended data), the status prints and the
directory creation of `ensure_output_dir`. -/
inductive Effect where
  | printCaptured (msg : List Char)
  | printHash (msg : List Char)
  | fileAppend (path : List Char) (data : List Char)
  | mkdirAll (path : List Char)
  | printStatus (msg : List Char)
deriving DecidableEq, Repr

/-- Path of the per-identity file written by `write_output`:
`out_dir / f"{username}_{domain}.txt"`. -/
def userFilePath (out_dir username domain : List Char) : List Char :=
  out_dir ++ '/' :: (username ++ '_' :: (domain ++ ".txt".data))

/-- Path of the aggregate file `out_dir / f"all_hashes_{format}.txt"`
computed in `TsharkListener.__init__`. -/
def allHashesPath (out_dir fmt : List Char) : List Char :=
  out_dir ++ "/all_hashes_".data ++ fmt ++ ".txt".data

/-- Text of the console capture report
`f"[+] {ts} - Captured AS-REQ for {username}@{domain}"`. -/
def capturedMsg (ts username domain : List Char) : List Char :=
  "[+] ".data ++ ts ++ " - Captured AS-REQ for ".data ++
    username ++ '@' :: domain

/-- `ensure_output_dir` from src/asreqroast.py, as the list of effects it
performs: when files are enabled it creates the directory (parents,
exist_ok) and prints the directory in use; otherwise it only prints
that no output files will be created. -/
def ensure_output_dir (path : List Char) (no_files : Bool) : List Effect :=
  if !no_files then
    [Effect.mkdirAll path,
     Effect.printStatus ("[+] Using output directory: ".data ++ path)]
  else
    [Effect.printStatus "[*] No output files will be created".data]

/-- The state of the subprocess handle that `shutdown` interacts with:
whether the process group of the tshark process still exists. -/
structure ProcHandle where
  groupExists : Bool
deriving DecidableEq, Repr

/-- The fields of the `TsharkListener` class. `format` holds the value
stored by `__init__`, which lowercases its argument; `stop` is the
cooperative cancellation flag; `proc` is the subprocess handle;
`groupSignalled` records whether SIGTERM was delivered to the process
group (the externally visible outcome of `os.killpg`). -/
structure TsharkListener where
  interface : List Char
  out_dir : List Char
  format : List Char
  no_files : Bool
  stop : Bool
  proc : Option ProcHandle
  groupSignalled : Bool
deriving DecidableEq, Repr

/-- `TsharkListener.__init__`: stores the configuration, lowercases the
format, starts with the stop flag clear and no subprocess. -/
def initListener (interface out_dir fmt : List Char) (no_files : Bool) :
    TsharkListener :=
  { interface := interface, out_dir := out_dir, format := pyLower fmt,
    no_files := no_files, stop := false, proc := none,
    groupSignalled := false }

/-- `os.killpg(os.getpgid(pid), SIGTERM)` as seen from `shutdown`:
raises (models `ProcessLookupError`) when the process group no longer
exists, otherwise delivers the signal to the group. -/
def killpg (l : TsharkListener) (p : ProcHandle) :
    Except Unit TsharkListener :=
  if p.groupExists then Except.ok { l with groupSignalled := true }
  else Except.error ()

/-- `TsharkListener.shutdown`: set the stop flag; if a subprocess handle
exists, signal its whole process group, swallowing any error (the
bare `except Exception: pass`). -/
def TsharkListener.shutdown (l : TsharkListener) : TsharkListener :=
  let l1 : TsharkListener := { l with stop := true }
  match l1.proc with
  | none => l1
  | some p =>
    match killpg l1 p with
    | Except.ok l2 => l2
    | Except.error _ => l1

/-- One iteration of the body of the `for line in self.proc.stdout`
loop in `TsharkListener.run`, for a non-cancelled listener: strip the
line, skip it when blank or unparseable, otherwise print the capture
report and the formatted hash and, unless `no_files`, append the hash
to the per-identity file and then to the aggregate file. `fail` is the
file-system oracle: `fail p = true` means opening path `p` for append
raises an OSError. The Bool result is `true` when the iteration ends
normally and `false` when an uncaught exception propagates. -/
def processLine (l : TsharkListener) (fail : List Char → Bool)
    (ts rawLine : List Char) : List Effect × Bool :=
  let line := pyStrip rawLine
  if line.isEmpty then ([], true)
  else
    match parse_asreq_line line with
    | none => ([], true)
    | some (username, domain, cipher) =>
      let hash_str := format_asreq_hash username domain cipher l.format
      let console := [Effect.printCaptured (capturedMsg ts username domain),
                      Effect.printHash hash_str]
      if !l.no_files then
        let p1 := userFilePath l.out_dir username domain
        if fail p1 then (console, false)
        else
          let p2 := allHashesPath l.out_dir l.format
          if fail p2 then
            (console ++ [Effect.fileAppend p1 (hash_str ++ ['\n'])], false)
          else
            (console ++ [Effect.fileAppend p1 (hash_str ++ ['\n']),
                         Effect.fileAppend p2 (hash_str ++ ['\n'])], true)
      else (console, true)

/-- The loop of `TsharkListener.run` over the stream of stdout lines,
each paired with the wall-clock timestamp string current when it is
processed. Per iteration: exit at once if the stop flag is set, else
run the loop body; an uncaught exception from the body aborts the loop,
keeping the effects performed so far, with `false` as the completion
flag. -/
def runLines (l : TsharkListener) (fail : List Char → Bool) :
    List (List Char × List Char) → List Effect × Bool
  | [] => ([], true)
  | (ts, line) :: rest =>
    if l.stop then ([], true)
    else
      match processLine l fail ts line with
      | (effs, true) =>
        match runLines l fail rest with
        | (effs2, done) => (effs ++ effs2, done)
      | (effs, false) => (effs, false)

/-- Number of occurrences of a character in a string. -/
def countc (a : Char) : List Char → Nat
  | [] => 0
  | c :: cs => (if c = a then 1 else 0) + countc a cs

theorem countc_append (a : Char) (l m : List Char) :
    countc a (l ++ m) = countc a l + countc a m := by
  induction l with
  | nil => simp [countc]
  | cons c cs ih => simp [countc, ih]; omega

theorem countc_reverse (a : Char) (l : List Char) :
    countc a l.reverse = countc a l := by
  induction l with
  | nil => rfl
  | cons c cs ih => simp [countc, countc_append, ih]; omega

theorem countc_dropWhile (a : Char) (p : Char → Bool) (hp : p a = false)
    (l : List Char) : countc a (l.dropWhile p) = countc a l := by
  induction l with
  | nil => rfl
  | cons c cs ih =>
    by_cases hc : p c
    · have hca : c ≠ a := by
        intro e
        rw [e, hp] at hc
        exact Bool.false_ne_true hc
    -- dropping c removes no occurrence of a
      simp [List.dropWhile_cons, hc, ih, countc, hca]
    · simp [List.dropWhile_cons, hc]

theorem countc_pyStrip (a : Char) (hp : pyIsSpace a = false)
    (l : List Char) : countc a (pyStrip l) = countc a l := by
  unfold pyStrip
  rw [countc_reverse, countc_dropWhile a pyIsSpace hp, countc_reverse,
    countc_dropWhile a pyIsSpace hp]

theorem pySplit_ne_nil (sep : Char) (l : List Char) : pySplit sep l ≠ [] := by
  induction l with
  | nil => simp [pySplit]
  | cons c cs ih =>
    simp only [pySplit]
    split
    · simp
    · split
      · simp
      · simp

theorem length_pySplit (sep : Char) (l : List Char) :
    (pySplit sep l).length = countc sep l + 1 := by
  induction l with
  | nil => simp [pySplit, countc]
  | cons c cs ih =>
    simp only [pySplit]
    by_cases h : c = sep
    · subst h
      simp [countc, ih]
      omega
    · cases hs : pySplit sep cs with
      | nil => exact absurd hs (pySplit_ne_nil sep cs)
      | cons p ps =>
        rw [hs] at ih
        simp only [if_neg h, hs]
        simp only [List.length_cons] at ih ⊢
        simp [countc, h]
        omega

theorem length_pySplit_pyStrip (l : List Char) :
    (pySplit '$' (pyStrip l)).length = (pySplit '$' l).length := by
  rw [length_pySplit, length_pySplit, countc_pyStrip '$' (by decide)]

theorem pyStrip_eq_nil_of_all_space (l : List Char)
    (h : ∀ c ∈ l, pyIsSpace c = true) : pyStrip l = [] := by
  have hd : l.dropWhile pyIsSpace = [] := by
    induction l with
    | nil => rfl
    | cons c cs ih =>
      rw [List.dropWhile_cons, if_pos (h c (List.mem_cons_self c cs))]
      exact ih fun x hx => h x (List.mem_cons_of_mem c hx)
  unfold pyStrip
  rw [hd]
  rfl

/-- Inverse of `pySplit`: rejoin the parts with the separator. -/
def joinSep (sep : Char) : List (List Char) → List Char
  | [] => []
  | [p] => p
  | p :: q :: ps => p ++ sep :: joinSep sep (q :: ps)

theorem joinSep_pySplit (sep : Char) (l : List Char) :
    joinSep sep (pySplit sep l) = l := by
  induction l with
  | nil => rfl
  | cons c cs ih =>
    simp only [pySplit]
    by_cases h : c = sep
    · subst h
      rw [if_pos rfl]
      cases hs : pySplit c cs with
      | nil => exact absurd hs (pySplit_ne_nil c cs)
      | cons p ps =>
        rw [hs] at ih
        simp [joinSep, ih]
    · rw [if_neg h]
      cases hs : pySplit sep cs with
      | nil => exact absurd hs (pySplit_ne_nil sep cs)
      | cons p ps =>
        rw [hs] at ih
        cases ps with
        | nil => simp [joinSep] at ih ⊢; rw [ih]
        | cons q qs => simp [joinSep] at ih ⊢; rw [ih]

theorem not_mem_of_mem_pySplit (sep : Char) (l p : List Char)
    (hp : p ∈ pySplit sep l) : sep ∉ p := by
  induction l generalizing p with
  | nil =>
    simp [pySplit] at hp
    subst hp
    simp
  | cons c cs ih =>
    simp only [pySplit] at hp
    by_cases h : c = sep
    · rw [if_pos h] at hp
      rcases List.mem_cons.mp hp with he | hm
      · subst he; simp
      · exact ih p hm
    · rw [if_neg h] at hp
      cases hs : pySplit sep cs with
      | nil => exact absurd hs (pySplit_ne_nil sep cs)
      | cons q qs =>
        rw [hs] at hp
        rcases List.mem_cons.mp hp with he | hm
        · subst he
          intro hmem
          rcases List.mem_cons.mp hmem with he2 | hm2
          · exact h he2.symm
          · exact ih q (hs ▸ List.mem_cons_self q qs) hm2
        · exact ih p (hs ▸ List.mem_cons_of_mem q hm)

theorem pySplit_cons_ne (sep c : Char) (cs : List Char) (h : ¬c = sep) :
    pySplit sep (c :: cs) =
      (c :: (pySplit sep cs).headD []) :: (pySplit sep cs).tail := by
  simp only [pySplit, if_neg h]
  cases hs : pySplit sep cs with
  | nil => exact absurd hs (pySplit_ne_nil sep cs)
  | cons p ps => simp

theorem pySplit_append_sep (sep : Char) (u rest : List Char)
    (h : sep ∉ u) : pySplit sep (u ++ sep :: rest) = u :: pySplit sep rest := by
  induction u with
  | nil => simp [pySplit]
  | cons c u ih =>
    have hc : ¬c = sep := fun e => h (e ▸ List.mem_cons_self c u)
    have hu : sep ∉ u := fun hm => h (List.mem_cons_of_mem c hm)
    rw [List.cons_append, pySplit_cons_ne sep c _ hc, ih hu]
    simp

theorem pySplit_of_not_mem (sep : Char) (l : List Char) (h : sep ∉ l) :
    pySplit sep l = [l] := by
  induction l with
  | nil => rfl
  | cons c cs ih =>
    have hc : ¬c = sep := fun e => h (e ▸ List.mem_cons_self c cs)
    have hcs : sep ∉ cs := fun hm => h (List.mem_cons_of_mem c hm)
    simp only [pySplit, if_neg hc, ih hcs]

theorem parse_eq_some_inv (line u d c : List Char)
    (h : parse_asreq_line line = some (u, d, c)) :
    pySplit '$' (pyStrip line) = [u, d, c] ∧ u ≠ [] ∧ d ≠ [] ∧ c ≠ [] := by
  unfold parse_asreq_line at h
  rcases hs : pySplit '$' (pyStrip line) with _ | ⟨a, _ | ⟨b, _ | ⟨e, _ | ⟨f, fs⟩⟩⟩⟩ <;>
    rw [hs] at h <;> simp at h
  rcases h with ⟨⟨⟨ha, hb⟩, he⟩, h1, h2, h3⟩
  subst h1
  subst h2
  subst h3
  exact ⟨rfl, ha, hb, he⟩

theorem parse_none_of_shape (line : List Char)
    (h : (pySplit '$' (pyStrip line)).length ≠ 3 ∨
         [] ∈ pySplit '$' (pyStrip line)) :
    parse_asreq_line line = none := by
  unfold parse_asreq_line
  rcases hs : pySplit '$' (pyStrip line) with _ | ⟨a, _ | ⟨b, _ | ⟨e, _ | ⟨f, fs⟩⟩⟩⟩ <;>
    rw [hs] at h
  all_goals simp at h ⊢
  intro h1 h2
  rcases h with ha | hb | he
  · exact absurd ha h1
  · exact absurd hb h2
  · exact he

/-- C2 counterexample: the line built as U, the delimiter, D, the
delimiter, C with the non-empty fields U = a$b, D = c, C = d is
rejected by the parser (it splits into four parts), so the claim that
every such line yields a record (a$b, c, d) is false. -/
theorem asreq_c2_counterexample :
    parse_asreq_line ("a$b".data ++ '$' :: ("c".data ++ '$' :: "d".data)) =
      none := by decide

/-- C2 (amended): for all non-empty U, D, C none of which contains the
delimiter character, and whose joined line U, delimiter, D, delimiter, C
carries no surrounding whitespace (it equals its own strip), the Field
Parser returns the record (U, D, C) positionally. -/
theorem asreq_c2_parse_wellformed (u d c : List Char)
    (hu : u ≠ []) (hd : d ≠ []) (hc : c ≠ [])
    (hu2 : '$' ∉ u) (hd2 : '$' ∉ d) (hc2 : '$' ∉ c)
    (hline : pyStrip (u ++ '$' :: (d ++ '$' :: c)) =
      u ++ '$' :: (d ++ '$' :: c)) :
    parse_asreq_line (u ++ '$' :: (d ++ '$' :: c)) = some (u, d, c) := by
  unfold parse_asreq_line
  rw [hline, pySplit_append_sep '$' u _ hu2, pySplit_append_sep '$' d _ hd2,
    pySplit_of_not_mem '$' c hc2]
  simp [hu, hd, hc]

theorem asreq_c2_witness :
    parse_asreq_line ("alice".data ++ '$' :: ("EXAMPLE.COM".data ++
      '$' :: "deadbeef".data)) =
      some ("alice".data, "EXAMPLE.COM".data, "deadbeef".data) :=
  asreq_c2_parse_wellformed "alice".data "EXAMPLE.COM".data "deadbeef".data
    (by decide) (by decide) (by decide) (by decide) (by decide) (by decide)
    (by decide)

/-- C3: every line that is empty, or whitespace-only, or splits on the
delimiter into a number of parts other than 3, or has an empty part
after the whole line is trimmed, is rejected by the Field Parser. -/
theorem asreq_c3_parse_rejects (line : List Char)
    (h : line = [] ∨ (∀ ch ∈ line, pyIsSpace ch = true) ∨
         (pySplit '$' line).length ≠ 3 ∨
         [] ∈ pySplit '$' (pyStrip line)) :
    parse_asreq_line line = none := by
  rcases h with h | h | h | h
  · subst h
    rfl
  · apply parse_none_of_shape
    left
    rw [pyStrip_eq_nil_of_all_space line h]
    decide
  · exact parse_none_of_shape line (Or.inl (by rw [length_pySplit_pyStrip]; exact h))
  · exact parse_none_of_shape line (Or.inr h)

theorem asreq_c3_witness : parse_asreq_line "a$b".data = none :=
  asreq_c3_parse_rejects "a$b".data (Or.inr (Or.inr (Or.inl (by decide))))

/-- C4: for every record, Hashcat mode yields the fixed prefix, the
principal, the delimiter, the realm, the delimiter and the cipher, and
John mode doubles the delimiter before the cipher; the formatter is a
total function with no failure case. -/
theorem asreq_c4_format_templates (u d c : List Char) :
    format_asreq_hash u d c "hashcat".data =
      "$krb5pa$18$".data ++ u ++ '$' :: (d ++ '$' :: c) ∧
    format_asreq_hash u d c "john".data =
      "$krb5pa$18$".data ++ u ++ '$' :: (d ++ '$' :: ('$' :: c)) :=
  ⟨rfl, rfl⟩

/-- C9: whenever the Field Parser accepts a line, joining the three
returned fields with the delimiter reconstructs exactly the
whitespace-trimmed input line, and no returned field contains the
delimiter character. -/
theorem asreq_c9_roundtrip (line u d c : List Char)
    (h : parse_asreq_line line = some (u, d, c)) :
    u ++ '$' :: (d ++ '$' :: c) = pyStrip line ∧
    '$' ∉ u ∧ '$' ∉ d ∧ '$' ∉ c := by
  obtain ⟨hs, hu, hd, hc⟩ := parse_eq_some_inv line u d c h
  refine ⟨?_, ?_, ?_, ?_⟩
  · have hj := joinSep_pySplit '$' (pyStrip line)
    rw [hs] at hj
    simpa [joinSep] using hj
  · exact not_mem_of_mem_pySplit '$' (pyStrip line) u (hs ▸ by simp)
  · exact not_mem_of_mem_pySplit '$' (pyStrip line) d (hs ▸ by simp)
  · exact not_mem_of_mem_pySplit '$' (pyStrip line) c (hs ▸ by simp)

theorem asreq_c9_witness :
    "bob".data ++ '$' :: ("EX.COM".data ++ '$' :: "beef".data) =
      pyStrip "  bob$EX.COM$beef\n".data ∧
    '$' ∉ "bob".data ∧ '$' ∉ "EX.COM".data ∧ '$' ∉ "beef".data :=
  asreq_c9_roundtrip "  bob$EX.COM$beef\n".data "bob".data "EX.COM".data
    "beef".data (by decide)

/-- C10: the formatter compares the mode string case-insensitively: any
mode whose ASCII-lowercased form differs from the John mode string
falls through to the Hashcat template, and any mode whose lowercased
form is the John mode string takes the John template; the formatter is
total, so no mode string makes it fail. -/
theorem asreq_c10_mode_fallback (u d c fmt : List Char) :
    (pyLower fmt ≠ "john".data →
      format_asreq_hash u d c fmt =
        "$krb5pa$18$".data ++ u ++ '$' :: (d ++ '$' :: c)) ∧
    (pyLower fmt = "john".data →
      format_asreq_hash u d c fmt =
        "$krb5pa$18$".data ++ u ++ '$' :: (d ++ '$' :: ('$' :: c))) := by
  constructor <;> intro h <;> simp [format_asreq_hash, h]

theorem asreq_c10_witness :
    format_asreq_hash "a".data "b".data "cc".data "HASHCAT".data =
      "$krb5pa$18$".data ++ "a".data ++ '$' :: ("b".data ++ '$' :: "cc".data) ∧
    format_asreq_hash "a".data "b".data "cc".data "JoHn".data =
      "$krb5pa$18$".data ++ "a".data ++
        '$' :: ("b".data ++ '$' :: ('$' :: "cc".data)) :=
  ⟨(asreq_c10_mode_fallback "a".data "b".data "cc".data "HASHCAT".data).1
      (by decide),
   (asreq_c10_mode_fallback "a".data "b".data "cc".data "JoHn".data).2
      (by decide)⟩

/-- Projection of an effect to a file append (path, data), if it is one. -/
def effectAppend : Effect → Option (List Char × List Char)
  | Effect.fileAppend p d => some (p, d)
  | _ => none

/-- An effect that touches the file system: an append or a directory
creation. -/
def isWriteEffect : Effect → Bool
  | Effect.fileAppend _ _ => true
  | Effect.mkdirAll _ => true
  | _ => false

/-- The formatted hash strings printed to the console, in order. -/
def emittedHashes (effs : List Effect) : List (List Char) :=
  effs.filterMap fun e =>
    match e with
    | Effect.printHash h => some h
    | _ => none

/-- The timestamped capture reports printed to the console, in order. -/
def capturedReports (effs : List Effect) : List (List Char) :=
  effs.filterMap fun e =>
    match e with
    | Effect.printCaptured m => some m
    | _ => none

/-- Formatted hash expected for each parseable line of the input, in
arrival order, with no entry for unparseable lines. -/
def expectedHashes (fmt : List Char)
    (inputs : List (List Char × List Char)) : List (List Char) :=
  inputs.filterMap fun tl =>
    (parse_asreq_line (pyStrip tl.2)).map fun r =>
      format_asreq_hash r.1 r.2.1 r.2.2 fmt

/-- Console capture report expected for each parseable line of the
input, in arrival order. -/
def expectedReports (inputs : List (List Char × List Char)) :
    List (List Char) :=
  inputs.filterMap fun tl =>
    (parse_asreq_line (pyStrip tl.2)).map fun r =>
      capturedMsg tl.1 r.1 r.2.1

/-- C7: shutdown is idempotent: a second call leaves the state produced
by the first call unchanged (stop flag set, process group signalled
when a live process group existed), and shutdown is a total function,
so it raises no error even when the process group no longer exists (the
modelled killpg failure is swallowed). -/
theorem asreq_c7_shutdown_idempotent (l : TsharkListener) :
    l.shutdown.shutdown = l.shutdown ∧ l.shutdown.stop = true ∧
    (∀ p, l.proc = some p → p.groupExists = true →
      l.shutdown.groupSignalled = true) := by
  obtain ⟨iface, od, fmt, nf, stop, proc, gs⟩ := l
  cases proc with
  | none => simp [TsharkListener.shutdown]
  | some p =>
    obtain ⟨ge⟩ := p
    cases ge <;> simp [TsharkListener.shutdown, killpg]

theorem asreq_c7_witness :
    (TsharkListener.shutdown (TsharkListener.shutdown
      { interface := "eth0".data, out_dir := "out".data,
        format := "hashcat".data, no_files := false, stop := false,
        proc := some { groupExists := true }, groupSignalled := false }) =
    TsharkListener.shutdown
      { interface := "eth0".data, out_dir := "out".data,
        format := "hashcat".data, no_files := false, stop := false,
        proc := some { groupExists := true }, groupSignalled := false }) ∧
    (TsharkListener.shutdown
      { interface := "eth0".data, out_dir := "out".data,
        format := "hashcat".data, no_files := false, stop := false,
        proc := some { groupExists := true }, groupSignalled := false
      }).groupSignalled = true :=
  ⟨(asreq_c7_shutdown_idempotent _).1,
   (asreq_c7_shutdown_idempotent _).2.2 { groupExists := true } rfl rfl⟩

theorem processLine_parsed_files (l : TsharkListener)
    (fail : List Char → Bool) (ts line u d c : List Char)
    (hnf : l.no_files = false) (hok : ∀ p, fail p = false)
    (hp : parse_asreq_line (pyStrip line) = some (u, d, c)) :
    processLine l fail ts line =
      ([Effect.printCaptured (capturedMsg ts u d),
        Effect.printHash (format_asreq_hash u d c l.format),
        Effect.fileAppend (userFilePath l.out_dir u d)
          (format_asreq_hash u d c l.format ++ ['\n']),
        Effect.fileAppend (allHashesPath l.out_dir l.format)
          (format_asreq_hash u d c l.format ++ ['\n'])], true) := by
  have hne : (pyStrip line).isEmpty = false := by
    cases hl : pyStrip line with
    | nil =>
      rw [hl, show parse_asreq_line ([] : List Char) = none from rfl] at hp
      exact Option.noConfusion hp
    | cons x xs => rfl
  simp [processLine, hne, hp, hnf, hok]

theorem processLine_noFail_snd (l : TsharkListener) (ts line : List Char) :
    (processLine l (fun _ => false) ts line).2 = true := by
  by_cases hb : (pyStrip line).isEmpty
  · simp [processLine, hb]
  · cases hp : parse_asreq_line (pyStrip line) with
    | none => simp [processLine, hb, hp]
    | some r =>
      obtain ⟨u, d, c⟩ := r
      by_cases hnf : l.no_files <;> simp [processLine, hb, hp, hnf]

theorem processLine_noFail_hashes (l : TsharkListener)
    (ts line : List Char) :
    emittedHashes (processLine l (fun _ => false) ts line).1 =
      ((parse_asreq_line (pyStrip line)).map fun r =>
        format_asreq_hash r.1 r.2.1 r.2.2 l.format).toList := by
  by_cases hb : (pyStrip line).isEmpty
  · have hnil : pyStrip line = [] := by
      cases hl : pyStrip line with
      | nil => rfl
      | cons x xs => rw [hl] at hb; simp at hb
    have hpn : parse_asreq_line (pyStrip line) = none := by
      rw [hnil]
      rfl
    simp [processLine, hb, hpn, emittedHashes]
  · cases hp : parse_asreq_line (pyStrip line) with
    | none => simp [processLine, hb, hp, emittedHashes]
    | some r =>
      obtain ⟨u, d, c⟩ := r
      by_cases hnf : l.no_files <;>
        simp [processLine, hb, hp, hnf, emittedHashes]

theorem expectedHashes_cons (fmt ts line : List Char)
    (rest : List (List Char × List Char)) :
    expectedHashes fmt ((ts, line) :: rest) =
      ((parse_asreq_line (pyStrip line)).map fun r =>
        format_asreq_hash r.1 r.2.1 r.2.2 fmt).toList ++
      expectedHashes fmt rest := by
  unfold expectedHashes
  simp only [List.filterMap_cons]
  cases hp : parse_asreq_line (pyStrip line) <;> simp [hp]

theorem expectedReports_cons (ts line : List Char)
    (rest : List (List Char × List Char)) :
    expectedReports ((ts, line) :: rest) =
      ((parse_asreq_line (pyStrip line)).map fun r =>
        capturedMsg ts r.1 r.2.1).toList ++
      expectedReports rest := by
  unfold expectedReports
  simp only [List.filterMap_cons]
  cases hp : parse_asreq_line (pyStrip line) <;> simp [hp]

/-- C5: for a successfully parsed record processed with persistence
enabled and the file system healthy, the loop body appends exactly one
line, the formatted hash followed by the line terminator, to each of
the per-identity file and the aggregate file, in that order and with
nothing else touching the file system; and the loop then continues
with the remaining lines, every occurrence appended anew with no
deduplication. -/
theorem asreq_c5_sink_appends (l : TsharkListener)
    (fail : List Char → Bool) (ts line u d c : List Char)
    (rest : List (List Char × List Char))
    (hnf : l.no_files = false) (hok : ∀ p, fail p = false)
    (hstop : l.stop = false)
    (hp : parse_asreq_line (pyStrip line) = some (u, d, c)) :
    (processLine l fail ts line).1.filterMap effectAppend =
      [(userFilePath l.out_dir u d,
        format_asreq_hash u d c l.format ++ ['\n']),
       (allHashesPath l.out_dir l.format,
        format_asreq_hash u d c l.format ++ ['\n'])] ∧
    (runLines l fail ((ts, line) :: rest)).1 =
      (processLine l fail ts line).1 ++ (runLines l fail rest).1 := by
  have hP := processLine_parsed_files l fail ts line u d c hnf hok hp
  constructor
  · rw [hP]
    simp [effectAppend]
  · rcases hr : runLines l fail rest with ⟨e2, d2⟩
    simp [runLines, hstop, hP, hr]

theorem asreq_c5_witness :
    (processLine (initListener "eth0".data "out".data "hashcat".data false)
        (fun _ => false) "ts0".data "alice$EXAMPLE.COM$deadbeef".data
      ).1.filterMap effectAppend =
      [(userFilePath "out".data "alice".data "EXAMPLE.COM".data,
        format_asreq_hash "alice".data "EXAMPLE.COM".data "deadbeef".data
          (initListener "eth0".data "out".data "hashcat".data
            false).format ++ ['\n']),
       (allHashesPath "out".data
          (initListener "eth0".data "out".data "hashcat".data false).format,
        format_asreq_hash "alice".data "EXAMPLE.COM".data "deadbeef".data
          (initListener "eth0".data "out".data "hashcat".data
            false).format ++ ['\n'])] ∧
    (runLines (initListener "eth0".data "out".data "hashcat".data false)
        (fun _ => false)
        [("ts0".data, "alice$EXAMPLE.COM$deadbeef".data)]).1 =
      (processLine (initListener "eth0".data "out".data "hashcat".data false)
        (fun _ => false) "ts0".data "alice$EXAMPLE.COM$deadbeef".data).1 ++
      (runLines (initListener "eth0".data "out".data "hashcat".data false)
        (fun _ => false) []).1 :=
  asreq_c5_sink_appends
    (initListener "eth0".data "out".data "hashcat".data false)
    (fun _ => false) "ts0".data "alice$EXAMPLE.COM$deadbeef".data
    "alice".data "EXAMPLE.COM".data "deadbeef".data []
    rfl (fun _ => rfl) rfl (by decide)

/-- C6: with a healthy file system, the formatted hashes emitted to the
console appear in exactly the arrival order of their source lines, one
per parseable line, with no entry for unparseable lines. -/
theorem asreq_c6_ordering (l : TsharkListener)
    (inputs : List (List Char × List Char)) (hstop : l.stop = false) :
    emittedHashes (runLines l (fun _ => false) inputs).1 =
      expectedHashes l.format inputs := by
  induction inputs with
  | nil => rfl
  | cons x rest ih =>
    obtain ⟨ts, line⟩ := x
    rcases hP : processLine l (fun _ => false) ts line with ⟨effs, b⟩
    have hb : b = true := by
      have h2 := processLine_noFail_snd l ts line
      rw [hP] at h2
      exact h2
    subst hb
    rcases hr : runLines l (fun _ => false) rest with ⟨e2, d2⟩
    rw [hr] at ih
    simp only [runLines, hstop, if_neg Bool.false_ne_true, hP, hr]
    rw [expectedHashes_cons]
    have hh := processLine_noFail_hashes l ts line
    rw [hP] at hh
    simpa [emittedHashes, List.filterMap_append] using
      congrArg₂ (· ++ ·) hh ih

theorem asreq_c6_witness :
    emittedHashes (runLines
      (initListener "eth0".data "out".data "hashcat".data true)
      (fun _ => false)
      [("t1".data, "alice$EXAMPLE.COM$aa".data),
       ("t2".data, "not a kerberos line".data),
       ("t3".data, "bob$EXAMPLE.COM$bb".data)]).1 =
    expectedHashes
      (initListener "eth0".data "out".data "hashcat".data true).format
      [("t1".data, "alice$EXAMPLE.COM$aa".data),
       ("t2".data, "not a kerberos line".data),
       ("t3".data, "bob$EXAMPLE.COM$bb".data)] :=
  asreq_c6_ordering (initListener "eth0".data "out".data "hashcat".data true)
    [("t1".data, "alice$EXAMPLE.COM$aa".data),
     ("t2".data, "not a kerberos line".data),
     ("t3".data, "bob$EXAMPLE.COM$bb".data)] rfl

theorem processLine_noFiles (l : TsharkListener) (fail : List Char → Bool)
    (ts line : List Char) (hnf : l.no_files = true) :
    processLine l fail ts line =
      (((parse_asreq_line (pyStrip line)).map fun r =>
        [Effect.printCaptured (capturedMsg ts r.1 r.2.1),
         Effect.printHash
           (format_asreq_hash r.1 r.2.1 r.2.2 l.format)]).getD [],
       true) := by
  by_cases hb : (pyStrip line).isEmpty
  · have hnil : pyStrip line = [] := by
      cases hl : pyStrip line with
      | nil => rfl
      | cons x xs => rw [hl] at hb; simp at hb
    have hpn : parse_asreq_line (pyStrip line) = none := by
      rw [hnil]
      rfl
    simp [processLine, hb, hpn]
  · cases hp : parse_asreq_line (pyStrip line) with
    | none => simp [processLine, hb, hp]
    | some r =>
      obtain ⟨u, d, c⟩ := r
      simp [processLine, hb, hp, hnf]

/-- C8: with persistence disabled, neither the directory-preparation
step nor the capture loop performs any file-system write, no matter how
many valid lines are processed, while the console still receives the
timestamped capture report and the formatted hash for every valid
line. -/
theorem asreq_c8_no_files (l : TsharkListener) (fail : List Char → Bool)
    (out_path : List Char) (inputs : List (List Char × List Char))
    (hnf : l.no_files = true) (hstop : l.stop = false) :
    (∀ e ∈ ensure_output_dir out_path true, isWriteEffect e = false) ∧
    (∀ e ∈ (runLines l fail inputs).1, isWriteEffect e = false) ∧
    emittedHashes (runLines l fail inputs).1 =
      expectedHashes l.format inputs ∧
    capturedReports (runLines l fail inputs).1 = expectedReports inputs := by
  refine ⟨?_, ?_⟩
  · intro e he
    simp [ensure_output_dir] at he
    subst he
    rfl
  · induction inputs with
    | nil =>
      refine ⟨?_, rfl, rfl⟩
      intro e he
      simp [runLines] at he
    | cons x rest ih =>
      obtain ⟨ts, line⟩ := x
      obtain ⟨ih1, ih2, ih3⟩ := ih
      rcases hr : runLines l fail rest with ⟨e2, d2⟩
      rw [hr] at ih1 ih2 ih3
      have hP := processLine_noFiles l fail ts line hnf
      simp only [runLines, hstop, if_neg Bool.false_ne_true, hP, hr]
      cases hp : parse_asreq_line (pyStrip line) with
      | none =>
        refine ⟨?_, ?_, ?_⟩
        · intro e he
          simp at he
          exact ih1 e he
        · rw [expectedHashes_cons, hp]
          simpa [emittedHashes] using ih2
        · rw [expectedReports_cons, hp]
          simpa [capturedReports] using ih3
      | some r =>
        obtain ⟨u, d, c⟩ := r
        refine ⟨?_, ?_, ?_⟩
        · intro e he
          simp at he
          rcases he with he | he | he
          · subst he; rfl
          · subst he; rfl
          · exact ih1 e he
        · rw [expectedHashes_cons, hp]
          simpa [emittedHashes, List.filterMap_cons] using ih2
        · rw [expectedReports_cons, hp]
          simpa [capturedReports, List.filterMap_cons] using ih3

theorem asreq_c8_witness :
    (∀ e ∈ ensure_output_dir "out".data true, isWriteEffect e = false) ∧
    (∀ e ∈ (runLines
      (initListener "eth0".data "out".data "hashcat".data true)
      (fun _ => true)
      [("t1".data, "alice$EXAMPLE.COM$aa".data),
       ("t2".data, "bob$EXAMPLE.COM$bb".data)]).1,
      isWriteEffect e = false) ∧
    emittedHashes (runLines
      (initListener "eth0".data "out".data "hashcat".data true)
      (fun _ => true)
      [("t1".data, "alice$EXAMPLE.COM$aa".data),
       ("t2".data, "bob$EXAMPLE.COM$bb".data)]).1 =
      expectedHashes
        (initListener "eth0".data "out".data "hashcat".data true).format
        [("t1".data, "alice$EXAMPLE.COM$aa".data),
         ("t2".data, "bob$EXAMPLE.COM$bb".data)] ∧
    capturedReports (runLines
      (initListener "eth0".data "out".data "hashcat".data true)
      (fun _ => true)
      [("t1".data, "alice$EXAMPLE.COM$aa".data),
       ("t2".data, "bob$EXAMPLE.COM$bb".data)]).1 =
      expectedReports
        [("t1".data, "alice$EXAMPLE.COM$aa".data),
         ("t2".data, "bob$EXAMPLE.COM$bb".data)] :=
  asreq_c8_no_files
    (initListener "eth0".data "out".data "hashcat".data true)
    (fun _ => true) "out".data
    [("t1".data, "alice$EXAMPLE.COM$aa".data),
     ("t2".data, "bob$EXAMPLE.COM$bb".data)]
    rfl rfl

/-- C1 evaluated at a failing input: with persistence enabled and a
file system on which every append raises, two parseable lines arrive;
the first line is reported to console, its first append raises, the
exception propagates out of the loop (completion flag false) and the
second line, itself parseable, is never processed: no console report
and no hash for it ever appears. The capture loop therefore does
terminate on a per-record persistence error, contrary to the claim. -/
theorem asreq_c1_loop_aborts :
    parse_asreq_line (pyStrip "bob$EXAMPLE.COM$bb".data) =
      some ("bob".data, "EXAMPLE.COM".data, "bb".data) ∧
    runLines (initListener "eth0".data "out".data "hashcat".data false)
        (fun _ => true)
        [("t1".data, "alice$EXAMPLE.COM$aa".data),
         ("t2".data, "bob$EXAMPLE.COM$bb".data)] =
      ([Effect.printCaptured
          (capturedMsg "t1".data "alice".data "EXAMPLE.COM".data),
        Effect.printHash
          (format_asreq_hash "alice".data "EXAMPLE.COM".data "aa".data
            "hashcat".data)],
       false) := by
  constructor
  · decide
  · decide

end ASReqRoast
